import Mathlib

/-!
Verification development for the Wikipedia path-analysis crawler.

The definitions below are shallow embeddings of the Python sources:
  - src/wiki_core.py                       (WikiCrawler: link validity, title
                                            derivation, first-link extraction,
                                            follow_path)
  - src/crawlers/parallel_wiki_crawler.py  (GeneralWikiCrawler.follow_general_path,
                                            ParallelWikiController)
  - src/crawlers/large_wiki_graph_crawler.py (DeepWikiCrawler.crawl_deeply,
                                            LargeWikiGraphController)

Strings are Lean String values; Python lists, dicts and sets over strings are
List String, association lists and List/Finset String respectively; the
network fetch inside extract_first_link is abstracted as an oracle function.
-/

namespace WikiPath

/-! ## Low-level string helpers (substring search, URL parsing, percent decoding)

These model the Python string primitives used by wiki_core.py:
str containment (the `in` operator), urlparse().path, str.split, str.replace
and urllib.parse.unquote.  All work on List Char so they reduce in the kernel.
-/

/-- Python substring containment: needle occurs contiguously inside the
haystack (the empty needle is contained in everything, as in Python). -/
def containsSub (n : List Char) : List Char → Bool
  | [] => n.isEmpty
  | c :: t => n.isPrefixOf (c :: t) || containsSub n t

/-- String-level wrapper for substring containment, `needle in hay`. -/
def strContains (hay needle : String) : Bool :=
  containsSub needle.data hay.data

/-- Suffix of the list after the first occurrence of sep (none if sep never
occurs).  Helper for extracting the part of a URL after the scheme separator. -/
def afterSubstr (sep : List Char) : List Char → Option (List Char)
  | [] => if sep.isEmpty then some [] else none
  | c :: t =>
    if sep.isPrefixOf (c :: t) then some ((c :: t).drop sep.length)
    else afterSubstr sep t

/-- Path component of a URL, modelling urlparse(url).path from
get_title_from_url (wiki_core.py lines 283-292) for the scheme://host/path
URLs this crawler produces (they carry no query or fragment): everything from
the first slash after the scheme separator; the whole string when there is no
scheme separator. -/
def urlPathChars (l : List Char) : List Char :=
  match afterSubstr "://".data l with
  | none => l
  | some rest => rest.dropWhile (fun c => c != '/')

/-- Final path segment, Python path.split("/")[-1]: the suffix after the last
slash (the whole string when it has no slash). -/
def lastSeg (l : List Char) : List Char :=
  (l.reverse.takeWhile (fun c => c != '/')).reverse

/-- Numeric value of a hex digit, if any. -/
def hexVal (c : Char) : Option Nat :=
  if '0' ≤ c ∧ c ≤ '9' then some (c.toNat - '0'.toNat)
  else if 'a' ≤ c ∧ c ≤ 'f' then some (c.toNat - 'a'.toNat + 10)
  else if 'A' ≤ c ∧ c ≤ 'F' then some (c.toNat - 'A'.toNat + 10)
  else none

/-- urllib.parse.unquote, byte-per-character: each %XX hex escape becomes the
character with that code, malformed escapes pass through unchanged. -/
def percentDecode : List Char → List Char
  | [] => []
  | '%' :: a :: b :: rest =>
    match hexVal a, hexVal b with
    | some x, some y => Char.ofNat (16 * x + y) :: percentDecode rest
    | _, _ => '%' :: percentDecode (a :: b :: rest)
  | c :: rest => c :: percentDecode rest

/-- WikiCrawler.get_title_from_url (wiki_core.py lines 283-292): take the
trailing segment of the URL path, turn underscores into spaces, then
percent-decode. -/
def get_title_from_url (url : String) : String :=
  String.mk (percentDecode
    ((lastSeg (urlPathChars url.data)).map (fun c => if c = '_' then ' ' else c)))

/-! ## Link validity (wiki_core.py lines 34-51) -/

/-- The non-article namespace markers skipped by is_valid_wiki_link
(wiki_core.py lines 41-42). -/
def namespaces : List String :=
  ["File:", "Wikipedia:", "Help:", "Template:",
   "Category:", "Portal:", "Talk:", "Special:"]

/-- WikiCrawler.is_valid_wiki_link (wiki_core.py lines 34-51).  The Python
early returns are folded into nested conditionals: reject unless the href
starts with /wiki/; reject when a colon occurs and one of the namespace
markers occurs anywhere in the href (Python `namespace in href`); reject when
a hash or a "(disambiguation)" marker occurs anywhere. -/
def is_valid_wiki_link (href : String) : Bool :=
  if "/wiki/".data.isPrefixOf href.data then
    if containsSub [':'] href.data
        && namespaces.any (fun ns => containsSub ns.data href.data) then false
    else if containsSub ['#'] href.data
        || containsSub "(disambiguation)".data href.data then false
    else true
  else false

/-! ## First-link extraction inside a paragraph (wiki_core.py lines 136-178)

A paragraph is modelled as its sequence of inline children: plain text nodes
and anchor elements (href plus anchor text).  BeautifulSoup's
find_all('a', href=True) enumerates the anchors in order; for each candidate
the code walks its previous siblings backwards, prepending each sibling's
string, then counts parentheses in that accumulated text.
-/

/-- An inline node of a paragraph: a text node or an anchor with an href. -/
inductive PNode
  | text (s : String)
  | link (href : String) (txt : String)
deriving DecidableEq

/-- The string a sibling contributes to prev_text (wiki_core.py lines
156-162): a text node contributes itself, an anchor contributes its anchor
text (its .string). -/
def nodeString : PNode → String
  | .text s => s
  | .link _ t => t

/-- The crawler's base URL (wiki_core.py line 16). -/
def base_url : String := "https://en.wikipedia.org"

/-- urljoin(base_url, href) for the root-relative /wiki/... hrefs this
crawler follows: concatenation of origin and absolute path. -/
def urljoin (base href : String) : String := base ++ href

/-- prev_text as accumulated by the backward sibling walk (wiki_core.py lines
154-162).  The argument lists the previous siblings nearest-first; each
processed sibling's string is prepended to the text gathered so far. -/
def prev_text : List PNode → String
  | [] => ""
  | n :: rest => prev_text rest ++ nodeString n

/-- The per-paragraph candidate scan of extract_first_link (wiki_core.py
lines 144-178): walk the children in document order; at an anchor, if its
href is invalid skip it, otherwise count parentheses in the prev_text of its
previous siblings and skip it when open parens outnumber close parens; the
first surviving anchor wins and is joined onto the base URL. -/
def extract_para_first_link : List PNode → List PNode → Option String
  | [], _ => none
  | .text s :: rest, prevRev => extract_para_first_link rest (.text s :: prevRev)
  | .link h t :: rest, prevRev =>
    if is_valid_wiki_link h then
      let pt := prev_text prevRev
      if pt.data.count '(' > pt.data.count ')' then
        extract_para_first_link rest (.link h t :: prevRev)
      else some (urljoin base_url h)
    else extract_para_first_link rest (.link h t :: prevRev)

/-- Paragraph entry point: no previous siblings seen yet. -/
def extractParaLink (nodes : List PNode) : Option String :=
  extract_para_first_link nodes []

/-- Modelled from the spec's words, for comparison with the code's scan: walk
the paragraph left to right carrying the text preceding the current node; a
candidate link is accepted exactly when it is a valid wiki link and the
cumulative count of open parens in the preceding text does not exceed the
count of close parens; the first accepted candidate is returned. -/
def specFirstAcceptedLink : List PNode → String → Option String
  | [], _ => none
  | .text s :: rest, pre => specFirstAcceptedLink rest (pre ++ s)
  | .link h t :: rest, pre =>
    if is_valid_wiki_link h = true ∧ (pre.data.count '(' ≤ pre.data.count ')') then
      some (urljoin base_url h)
    else specFirstAcceptedLink rest (pre ++ t)

/-! ## The Link Extractor with retries (wiki_core.py lines 78-220)

The rendered page is modelled by the parts extract_first_link inspects: the
firstHeading element, the lead paragraphs (each with the infobox/sidebar
ancestor-skip flag computed in lines 124-134), the top-level list items, and
the unrestricted paragraph collection used by the last fallback.  One network
fetch either raises (modelled as failure), yields a page without the
mw-content-text container, or yields a parsed page.  The fetch oracle gives
the outcome of the i-th attempt.
-/

/-- A lead paragraph plus the precomputed flag saying whether one of its
ancestors carries an infobox/sidebar/metadata/navbox/hatnote class. -/
structure Para where
  skip : Bool
  nodes : List PNode
deriving DecidableEq

/-- The parts of a fetched article page that extract_first_link reads. -/
structure Page where
  heading : Option String
  paragraphs : List Para
  listItems : List (List PNode)
  allParagraphs : List (List PNode)
deriving DecidableEq

/-- Outcome of one fetch attempt. -/
inductive FetchResult
  | failure
  | noContentDiv
  | ok (p : Page)
deriving DecidableEq

/-- Text content of a paragraph (BeautifulSoup .text). -/
def paraText (nodes : List PNode) : String :=
  String.join (nodes.map nodeString)

/-- Python str.strip() emptiness test: all characters are whitespace. -/
def isBlank (s : String) : Bool :=
  s.data.all (fun c => c.isWhitespace)

/-- Paragraph loop of extract_first_link (lines 119-178): skip blank
paragraphs and paragraphs inside infobox-like containers, return the first
paragraph-level candidate. -/
def firstParagraphCandidate : List Para → Option String
  | [] => none
  | p :: rest =>
    if isBlank (paraText p.nodes) then firstParagraphCandidate rest
    else if p.skip then firstParagraphCandidate rest
    else
      match extractParaLink p.nodes with
      | some u => some u
      | none => firstParagraphCandidate rest

/-- Fallback scan (lines 184-206): the first link with a valid href, with no
parenthetical filtering. -/
def firstValidHref : List PNode → Option String
  | [] => none
  | .text _ :: rest => firstValidHref rest
  | .link h _ :: rest =>
    if is_valid_wiki_link h then some (urljoin base_url h)
    else firstValidHref rest

/-- First valid href across a list of node groups (list items, then all
paragraphs). -/
def firstValidHrefIn : List (List PNode) → Option String
  | [] => none
  | ns :: rest =>
    match firstValidHref ns with
    | some u => some u
    | none => firstValidHrefIn rest

/-- The successful-fetch body of extract_first_link (lines 88-210): resolve
the title from the firstHeading element or else from the URL, then run the
paragraph scan and the two fallbacks. -/
def extractFromPage (url : String) (p : Page) : Option String × String :=
  let title := p.heading.getD (get_title_from_url url)
  match firstParagraphCandidate p.paragraphs with
  | some u => (some u, title)
  | none =>
    match firstValidHrefIn p.listItems with
    | some u => (some u, title)
    | none =>
      match firstValidHrefIn p.allParagraphs with
      | some u => (some u, title)
      | none => (none, title)

/-- Retry loop of extract_first_link (lines 80-220): up to max_retries = 3
attempts; a raised exception or a missing content container consumes an
attempt (after a fixed sleep); when the attempts are exhausted the call
resolves to no link and a URL-derived title.  The first argument counts the
remaining attempts, the second the index of the next attempt. -/
def extract_first_link_loop (fetch : Nat → FetchResult) (url : String) :
    Nat → Nat → Option String × String
  | 0, _ => (none, get_title_from_url url)
  | r + 1, i =>
    match fetch i with
    | .failure => extract_first_link_loop fetch url r (i + 1)
    | .noContentDiv => extract_first_link_loop fetch url r (i + 1)
    | .ok p => extractFromPage url p

/-- WikiCrawler.extract_first_link (wiki_core.py lines 78-220), with the
fetch oracle supplying each attempt's outcome. -/
def extract_first_link (fetch : Nat → FetchResult) (url : String) :
    Option String × String :=
  extract_first_link_loop fetch url 3 0

/-! ## Path walkers

Each walker repeatedly consults an extractor oracle
e : String → Option String × String, the pure abstraction of
extract_first_link on an immutable snapshot of the wiki: e url is the pair
(first link of url if any, resolved title of url).  The while-loop step
budget becomes a fuel argument that starts at max_steps and decreases
exactly when the Python steps counter increases.  Each embedded walker also
records which exit fired, as the PathOutcome tag of the run; Python signals
this only through prints and the shape of the returned data.
-/

/-- Which terminal exit a walk took. -/
inductive Outcome
  | completed
  | deadEnd
  | loopDetected
  | stepLimit
  | depthReached
  | alreadyKnown
  | alreadyKnownStart
deriving DecidableEq

/-- Result of WikiCrawler.follow_path: the Python return value
(path, steps, titles) plus the exit tag. -/
structure WalkResult where
  path : List String
  steps : Nat
  titles : List (String × String)
  outcome : Outcome
deriving DecidableEq

/-- Loop body of WikiCrawler.follow_path (wiki_core.py lines 234-276):
extract link and title of the current article, record the title, stop on
title "Philosophy", stop when the current URL already occurs in path[:-1]
(loop detection after the repeat was appended on the previous iteration),
stop on a missing link, otherwise append the link and continue.  The graph
and visited bookkeeping of lines 264-268 is display-only and omitted. -/
def follow_path_loop (e : String → Option String × String) :
    Nat → String → List String → Nat → List (String × String) → WalkResult
  | 0, _, path, steps, titles => ⟨path, steps, titles, .stepLimit⟩
  | fuel + 1, current, path, steps, titles =>
    let r := e current
    let titles' := (current, r.2) :: titles
    if r.2 = "Philosophy" then ⟨path, steps, titles', .completed⟩
    else if current ∈ path.dropLast then ⟨path, steps, titles', .loopDetected⟩
    else
      match r.1 with
      | none => ⟨path, steps, titles', .deadEnd⟩
      | some nu => follow_path_loop e fuel nu (path ++ [nu]) (steps + 1) titles'

/-- WikiCrawler.follow_path (wiki_core.py lines 222-281) with a given start
article. -/
def follow_path (e : String → Option String × String) (max_steps : Nat)
    (start : String) : WalkResult :=
  follow_path_loop e max_steps start [start] 0 []

/-- Result of GeneralWikiCrawler.follow_general_path: the Python return
value (path, titles, reached_depth) plus the internal steps counter, the
exit tag, and the locator whose repetition fired loop detection. -/
structure GResult where
  path : List String
  titles : List (String × String)
  steps : Nat
  reached : Bool
  outcome : Outcome
  cycleStart : Option String
deriving DecidableEq

/-- Loop body of GeneralWikiCrawler.follow_general_path
(parallel_wiki_crawler.py lines 48-90): extract, record the title, return
reached_depth = True once steps ≥ target_depth - 1 (checked before anything
else, with Python integer arithmetic), stop on a missing link, stop without
appending when the next URL is already in visited_in_path (= the set of path
elements), otherwise append and continue.  Breaks fall through to line 90,
which reports reached = (steps ≥ target_depth - 1). -/
def follow_general_path_loop (e : String → Option String × String)
    (target_depth : Nat) :
    Nat → String → List String → List String → Nat →
      List (String × String) → GResult
  | 0, _, path, _, steps, titles =>
    ⟨path, titles, steps,
      decide ((steps : Int) ≥ (target_depth : Int) - 1), .stepLimit, none⟩
  | fuel + 1, current, path, visited, steps, titles =>
    let r := e current
    let titles' := (current, r.2) :: titles
    if (steps : Int) ≥ (target_depth : Int) - 1 then
      ⟨path, titles', steps, true, .depthReached, none⟩
    else
      match r.1 with
      | none =>
        ⟨path, titles', steps,
          decide ((steps : Int) ≥ (target_depth : Int) - 1), .deadEnd, none⟩
      | some nu =>
        if nu ∈ visited then
          ⟨path, titles', steps,
            decide ((steps : Int) ≥ (target_depth : Int) - 1), .loopDetected,
            some nu⟩
        else
          follow_general_path_loop e target_depth fuel nu (path ++ [nu])
            (nu :: visited) (steps + 1) titles'

/-- GeneralWikiCrawler.follow_general_path (parallel_wiki_crawler.py lines
28-90) with a given start article. -/
def follow_general_path (e : String → Option String × String)
    (target_depth max_steps : Nat) (start : String) : GResult :=
  follow_general_path_loop e target_depth max_steps start [start] [start] 0 []

/-- Result of DeepWikiCrawler.crawl_deeply: the Python return value
(path, titles, visited_articles) plus the exit tag and the locator that
fired loop detection or the global-duplicate stop. -/
structure DResult where
  path : List String
  titles : List (String × String)
  visitedArticles : List String
  outcome : Outcome
  trigger : Option String
deriving DecidableEq

/-- Loop body of DeepWikiCrawler.crawl_deeply (large_wiki_graph_crawler.py
lines 66-116): extract, record the title, stop on a missing link, stop
without appending when the next URL repeats within this path, append once
and stop when the next URL's locator-derived title is already in the
(mutated copy of the) global visited set, otherwise add the title to both
visited sets, append and continue.  vg is the walker's mutable copy of the
global set, va the titles visited in this crawl. -/
def crawl_deeply_loop (e : String → Option String × String) :
    Nat → String → List String → List String → List (String × String) →
      List String → List String → DResult
  | 0, _, path, _, titles, va, _ => ⟨path, titles, va, .stepLimit, none⟩
  | fuel + 1, current, path, vip, titles, va, vg =>
    let r := e current
    let titles' := (current, r.2) :: titles
    match r.1 with
    | none => ⟨path, titles', va, .deadEnd, none⟩
    | some nu =>
      if nu ∈ vip then ⟨path, titles', va, .loopDetected, some nu⟩
      else if get_title_from_url nu ∈ vg then
        ⟨path ++ [nu], (nu, get_title_from_url nu) :: titles', va,
          .alreadyKnown, some nu⟩
      else
        crawl_deeply_loop e fuel nu (path ++ [nu]) (nu :: vip) titles'
          (get_title_from_url nu :: va) (get_title_from_url nu :: vg)

/-- DeepWikiCrawler.crawl_deeply (large_wiki_graph_crawler.py lines 27-116)
run against a supplied global visited set: when the start article's
locator-derived title is already in the set it returns at once with the
one-element path (lines 56-59); otherwise the start title enters both
visited sets (lines 62-64) and the loop runs. -/
def crawl_deeply (e : String → Option String × String) (max_steps : Nat)
    (start : String) (visited_global : List String) : DResult :=
  if get_title_from_url start ∈ visited_global then
    ⟨[start], [], [], .alreadyKnownStart, none⟩
  else
    crawl_deeply_loop e max_steps start [start] [start] []
      [get_title_from_url start]
      (get_title_from_url start :: visited_global)

/-- Step count persisted for a deep-crawl result, as computed by
store_path (large_wiki_graph_crawler.py line 544) and crawl_article
(line 244): the number of path elements minus one. -/
def stored_steps (r : DResult) : Nat :=
  if 0 < r.path.length then r.path.length - 1 else 0

/-- The first-link cycle X → Y → Z → X of Scenario C; every other locator
dead-ends, and no title is "Philosophy". -/
def exC1 : String → Option String × String := fun u =>
  if u = "X" then (some "Y", "Title X")
  else if u = "Y" then (some "Z", "Title Y")
  else if u = "Z" then (some "X", "Title Z")
  else (none, u)

/-- A one-edge wiki X → Y where Y has no outgoing link. -/
def exOneEdge : String → Option String × String := fun u =>
  if u = "X" then (some "Y", "Title X") else (none, u)

/-! ## The controller's global visited set (C8, C10)

LargeWikiGraphController owns self.visited_articles, mutated only under
self.visited_articles_lock.  The operations the run performs on it are the
seeding update from the database (load_existing_articles lines 176-178) and
the per-job merge of a walker's newly seen titles (crawl_article lines
218-219); ParallelWikiController.mapped_articles likewise only receives
add calls (lines 187-190).  Every such operation is a fold of inserts. -/

/-- An operation a controller run performs on the global visited set. -/
inductive VisitedOp
  | seed (ts : List String)
  | merge (ts : List String)

/-- Python set.update / repeated set.add: insert every title of ts. -/
def addAll (s : Finset String) (ts : List String) : Finset String :=
  ts.foldl (fun t a => insert a t) s

/-- Effect of one operation on the global visited set. -/
def applyVisitedOp (s : Finset String) : VisitedOp → Finset String
  | .seed ts => addAll s ts
  | .merge ts => addAll s ts

/-- Effect of a whole interleaving, i.e. any sequence of operations. -/
def runVisitedOps (s : Finset String) (ops : List VisitedOp) : Finset String :=
  ops.foldl applyVisitedOp s

/-! ## The stop flag and persistence (C7)

Interleaving model of a controller run, from
ParallelWikiController.crawl_article (parallel_wiki_crawler.py lines
136-206) and LargeWikiGraphController.crawl_article
(large_wiki_graph_crawler.py lines 188-250) together with the size-monitor
threads (lines 246-280 and 290-339) and the submission loops.  A job's life:
it is submitted to the pool; when a worker picks it up, crawl_article first
reads the stop flag and returns None when it is set (lines 137-139 /
199-201); otherwise the walk runs; after the walk crawl_article reads the
flag again (lines 176-178 / 226-228) and either discards the result or
stores it.  threading.Event().set is the only flag transition — no
component ever clears it.  Each job records, as ghost data, whether the
flag was already set at the moment it entered the pool. -/

/-- Where a job stands in crawl_article. -/
inductive JobPhase
  | idle
  | accepted
  | walking
  | walked (flagSeen : Bool)
  | done
deriving DecidableEq

/-- Controller state: the stop flag, each job's phase, the ghost record of
the flag value at each job's acceptance, and the jobs whose results were
handed to the persistence sink. -/
structure CtrlState where
  flag : Bool
  phase : Nat → JobPhase
  acceptFlag : Nat → Option Bool
  stored : List Nat

/-- Controller start: flag clear, no job accepted, nothing stored. -/
def ctrlInit : CtrlState :=
  ⟨false, fun _ => .idle, fun _ => none, []⟩

/-- One interleaved action of the run.  setFlag is the size monitor firing;
submit accepts a job into the pool; start is the pre-walk flag check at the
top of crawl_article (short-circuits to done when the flag is set);
finishWalk ends the walk and performs the post-walk flag read; persist
stores a result whose post-walk read saw the flag clear; discard drops a
result whose post-walk read saw it set. -/
inductive CtrlStep : CtrlState → CtrlState → Prop
  | setFlag (s : CtrlState) :
      CtrlStep s { s with flag := true }
  | submit (s : CtrlState) (j : Nat) (h : s.phase j = .idle) :
      CtrlStep s { s with
        phase := Function.update s.phase j .accepted,
        acceptFlag := Function.update s.acceptFlag j (some s.flag) }
  | start (s : CtrlState) (j : Nat) (h : s.phase j = .accepted) :
      CtrlStep s { s with
        phase := Function.update s.phase j
          (if s.flag then .done else .walking) }
  | finishWalk (s : CtrlState) (j : Nat) (h : s.phase j = .walking) :
      CtrlStep s { s with
        phase := Function.update s.phase j (.walked s.flag) }
  | persist (s : CtrlState) (j : Nat) (h : s.phase j = .walked false) :
      CtrlStep s { s with
        phase := Function.update s.phase j .done,
        stored := j :: s.stored }
  | discard (s : CtrlState) (j : Nat) (h : s.phase j = .walked true) :
      CtrlStep s { s with
        phase := Function.update s.phase j .done }

/-- States a controller run can reach. -/
def CtrlReachable (s : CtrlState) : Prop :=
  Relation.ReflTransGen CtrlStep ctrlInit s

/-- Run invariant: everything stored was accepted while the flag was clear;
a job accepted under a set flag never advances past its first check and is
never stored; acceptance is recorded for every non-idle job; stored jobs
are finished. -/
def CtrlInv (s : CtrlState) : Prop :=
  (∀ j, j ∈ s.stored → s.acceptFlag j = some false) ∧
  (∀ j, s.acceptFlag j = some true →
    s.flag = true ∧ (s.phase j = .accepted ∨ s.phase j = .done)) ∧
  (∀ j, s.phase j ≠ .idle → s.acceptFlag j ≠ none) ∧
  (∀ j, j ∈ s.stored → s.phase j = .done)

/-- Witness trace for C7: one job is accepted while the flag is clear,
walks, checks the flag (still clear) and persists. -/
def ctrlW1 : CtrlState :=
  { ctrlInit with
    phase := Function.update ctrlInit.phase 0 .accepted,
    acceptFlag := Function.update ctrlInit.acceptFlag 0 (some ctrlInit.flag) }

def ctrlW2 : CtrlState :=
  { ctrlW1 with
    phase := Function.update ctrlW1.phase 0
      (if ctrlW1.flag then .done else .walking) }

def ctrlW3 : CtrlState :=
  { ctrlW2 with
    phase := Function.update ctrlW2.phase 0 (.walked ctrlW2.flag) }

def ctrlW4 : CtrlState :=
  { ctrlW3 with
    phase := Function.update ctrlW3.phase 0 .done,
    stored := 0 :: ctrlW3.stored }

/-! ## Theorems -/

theorem containsSub_of_isPrefixOf_drop (n : List Char) :
    ∀ (h : List Char) (i : Nat), n.isPrefixOf (h.drop i) = true → containsSub n h = true := by
  intro h
  induction h with
  | nil =>
    intro i hp
    simp only [List.drop_nil] at hp
    cases n with
    | nil => simp [containsSub]
    | cons a t => simp [List.isPrefixOf] at hp
  | cons c t ih =>
    intro i hp
    cases i with
    | zero =>
      simp only [List.drop_zero] at hp
      simp [containsSub, hp]
    | succ j =>
      simp only [List.drop_succ_cons] at hp
      simp [containsSub, ih j hp]

theorem mem_of_isPrefixOf {c : Char} :
    ∀ (n h : List Char), n.isPrefixOf h = true → c ∈ n → c ∈ h := by
  intro n
  induction n with
  | nil => intro h _ hc; cases hc
  | cons a t ih =>
    intro h hp hc
    cases h with
    | nil => simp [List.isPrefixOf] at hp
    | cons b u =>
      simp only [List.isPrefixOf, Bool.and_eq_true, beq_iff_eq] at hp
      rcases List.mem_cons.mp hc with rfl | hc
      · rw [hp.1]; exact List.mem_cons_self b u
      · exact List.mem_cons_of_mem b (ih u hp.2 hc)

theorem mem_of_containsSub {c : Char} :
    ∀ (n h : List Char), containsSub n h = true → c ∈ n → c ∈ h := by
  intro n h
  induction h with
  | nil =>
    intro hc hm
    simp only [containsSub, List.isEmpty_iff] at hc
    subst hc; cases hm
  | cons b u ih =>
    intro hc hm
    simp only [containsSub, Bool.or_eq_true] at hc
    rcases hc with hc | hc
    · exact mem_of_isPrefixOf n (b :: u) hc hm
    · exact List.mem_cons_of_mem b (ih hc hm)

theorem containsSub_singleton_of_mem {c : Char} :
    ∀ (h : List Char), c ∈ h → containsSub [c] h = true := by
  intro h
  induction h with
  | nil => intro hm; cases hm
  | cons b u ih =>
    intro hm
    rcases List.mem_cons.mp hm with rfl | hm
    · simp [containsSub, List.isPrefixOf]
    · simp [containsSub, ih hm]

/-- C5.  Every href accepted by the link-validity predicate starts with the
article-namespace path prefix /wiki/, its page name (the text after /wiki/)
has none of the eight non-article namespace markers as a case-sensitive
prefix, and the href contains neither a hash fragment marker nor a
"(disambiguation)" marker. -/
theorem valid_link_necessary_conditions (href : String)
    (h : is_valid_wiki_link href = true) :
    "/wiki/".data.isPrefixOf href.data = true ∧
    (∀ ns, ns ∈ namespaces → ¬ ns.data.isPrefixOf (href.data.drop 6) = true) ∧
    containsSub ['#'] href.data = false ∧
    containsSub "(disambiguation)".data href.data = false := by
  unfold is_valid_wiki_link at h
  by_cases hpre : "/wiki/".data.isPrefixOf href.data = true
  case neg => rw [if_neg hpre] at h; exact absurd h Bool.false_ne_true
  rw [if_pos hpre] at h
  by_cases hns : (containsSub [':'] href.data
      && namespaces.any (fun ns => containsSub ns.data href.data)) = true
  · rw [if_pos hns] at h; exact absurd h Bool.false_ne_true
  by_cases hfrag : (containsSub ['#'] href.data
      || containsSub "(disambiguation)".data href.data) = true
  · rw [if_neg hns, if_pos hfrag] at h; exact absurd h Bool.false_ne_true
  have hfrag' : containsSub ['#'] href.data = false ∧
      containsSub "(disambiguation)".data href.data = false := by
    constructor <;> exact Bool.not_eq_true _ |>.mp (fun hx => hfrag (by simp [hx]))
  refine ⟨hpre, ?_, hfrag'.1, hfrag'.2⟩
  intro ns hmem hprefix
  apply hns
  have hsub : containsSub ns.data href.data = true :=
    containsSub_of_isPrefixOf_drop ns.data href.data 6 hprefix
  have hcolonmem : (':' : Char) ∈ ns.data := by
    fin_cases hmem <;> decide
  have hcolon : containsSub [':'] href.data = true :=
    containsSub_singleton_of_mem href.data
      (mem_of_containsSub ns.data href.data hsub hcolonmem)
  rw [hcolon, List.any_eq_true.mpr ⟨ns, hmem, hsub⟩]
  rfl

/-- Witness for C5: the predicate accepts /wiki/Paris, and the necessary
conditions hold there. -/
theorem valid_link_necessary_conditions_witness :
    is_valid_wiki_link "/wiki/Paris" = true ∧
    ("/wiki/".data.isPrefixOf "/wiki/Paris".data = true ∧
     (∀ ns, ns ∈ namespaces →
        ¬ ns.data.isPrefixOf ("/wiki/Paris".data.drop 6) = true) ∧
     containsSub ['#'] "/wiki/Paris".data = false ∧
     containsSub "(disambiguation)".data "/wiki/Paris".data = false) :=
  ⟨by decide, valid_link_necessary_conditions "/wiki/Paris" (by decide)⟩

theorem extract_para_first_link_eq_spec :
    ∀ (nodes prevRev : List PNode),
      extract_para_first_link nodes prevRev =
        specFirstAcceptedLink nodes (prev_text prevRev) := by
  intro nodes
  induction nodes with
  | nil => intro prevRev; rfl
  | cons n rest ih =>
    intro prevRev
    cases n with
    | text s =>
      show extract_para_first_link rest (.text s :: prevRev) =
        specFirstAcceptedLink rest (prev_text prevRev ++ s)
      rw [ih (.text s :: prevRev)]
      rfl
    | link h t =>
      by_cases hv : is_valid_wiki_link h = true
      · by_cases hp : (prev_text prevRev).data.count '(' > (prev_text prevRev).data.count ')'
        · show extract_para_first_link (.link h t :: rest) prevRev = _
          rw [extract_para_first_link, if_pos hv]
          simp only [if_pos hp]
          rw [ih (.link h t :: prevRev)]
          rw [specFirstAcceptedLink,
            if_neg (by intro hc; exact absurd hc.2 (by omega))]
          rfl
        · show extract_para_first_link (.link h t :: rest) prevRev = _
          rw [extract_para_first_link, if_pos hv]
          simp only [if_neg hp]
          rw [specFirstAcceptedLink, if_pos ⟨hv, by omega⟩]
      · show extract_para_first_link (.link h t :: rest) prevRev = _
        rw [extract_para_first_link, if_neg hv]
        rw [ih (.link h t :: prevRev)]
        rw [specFirstAcceptedLink, if_neg (by intro hc; exact hv hc.1)]
        rfl

/-- C4.  The per-paragraph scan of the Link Extractor coincides with the
spec's description: a valid candidate link is rejected exactly when the
cumulative count of open parens exceeds close parens in the text preceding it
within the paragraph, and the first surviving candidate wins.  On the lead
text "A thing (see B) relates to C." with B and C both valid article links,
the extractor returns C, not B. -/
theorem paragraph_link_selection :
    (∀ nodes : List PNode,
        extractParaLink nodes = specFirstAcceptedLink nodes "") ∧
    is_valid_wiki_link "/wiki/B" = true ∧
    is_valid_wiki_link "/wiki/C" = true ∧
    extractParaLink
      [.text "A thing (see ", .link "/wiki/B" "B", .text ") relates to ",
       .link "/wiki/C" "C", .text "."] = some "https://en.wikipedia.org/wiki/C" := by
  refine ⟨?_, by decide, by decide, by decide⟩
  intro nodes
  exact extract_para_first_link_eq_spec nodes []

/-- C6.  Transient failures are retried at most 3 times: when the first three
fetch attempts all fail (exception or missing content container) the call
returns no link together with the URL-derived title instead of propagating an
error, and the call never looks beyond the first three attempts. -/
theorem extract_retries_bounded_and_degrades :
    (∀ (fetch : Nat → FetchResult) (url : String),
        (∀ i, i < 3 → fetch i = .failure ∨ fetch i = .noContentDiv) →
        extract_first_link fetch url = (none, get_title_from_url url)) ∧
    (∀ (f g : Nat → FetchResult) (url : String),
        (∀ i, i < 3 → f i = g i) →
        extract_first_link f url = extract_first_link g url) := by
  constructor
  · intro fetch url h
    rcases h 0 (by omega) with h0 | h0 <;>
      rcases h 1 (by omega) with h1 | h1 <;>
        rcases h 2 (by omega) with h2 | h2 <;>
          simp [extract_first_link, extract_first_link_loop, h0, h1, h2]
  · intro f g url h
    have h0 := h 0 (by omega)
    have h1 := h 1 (by omega)
    have h2 := h 2 (by omega)
    simp only [extract_first_link, extract_first_link_loop, h0, h1, h2]

/-- Witness for C6: with every attempt failing, the extractor of the
Ada Lovelace article degrades to a URL-derived title and no link. -/
theorem extract_retries_bounded_and_degrades_witness :
    extract_first_link (fun _ => FetchResult.failure)
        "https://en.wikipedia.org/wiki/Ada_Lovelace" =
      (none, "Ada Lovelace") ∧
    extract_first_link (fun _ => FetchResult.noContentDiv) "X" =
      extract_first_link (fun i => if i < 3 then .noContentDiv else .failure) "X" := by
  constructor
  · rw [extract_retries_bounded_and_degrades.1
      (fun _ => FetchResult.failure) "https://en.wikipedia.org/wiki/Ada_Lovelace"
      (fun i _ => Or.inl rfl)]
    decide
  · exact extract_retries_bounded_and_degrades.2
      (fun _ => FetchResult.noContentDiv) (fun i => if i < 3 then .noContentDiv else .failure)
      "X" (fun i hi => by simp [hi])

theorem follow_path_loop_steps (e : String → Option String × String) :
    ∀ (fuel : Nat) (current : String) (path : List String) (steps : Nat)
      (titles : List (String × String)),
      path.length = steps + 1 →
      (follow_path_loop e fuel current path steps titles).path.length =
        (follow_path_loop e fuel current path steps titles).steps + 1 := by
  intro fuel
  induction fuel with
  | zero => intro current path steps titles h; simpa [follow_path_loop] using h
  | succ n ih =>
    intro current path steps titles h
    rw [follow_path_loop]
    by_cases h1 : (e current).2 = "Philosophy"
    · simpa [h1] using h
    · rw [if_neg h1]
      by_cases h2 : current ∈ path.dropLast
      · simpa [h2] using h
      · rw [if_neg h2]
        cases hnext : (e current).1 with
        | none => simpa using h
        | some nu =>
          simpa using ih nu (path ++ [nu]) (steps + 1) _ (by simp [h])

theorem getLast?_append_single {α : Type} (a : α) :
    ∀ l : List α, (l ++ [a]).getLast? = some a := by
  intro l
  induction l with
  | nil => rfl
  | cons b t ih =>
    rw [List.cons_append, List.getLast?_cons]
    simp [ih]

theorem follow_general_path_loop_inv (e : String → Option String × String)
    (d : Nat) :
    ∀ (fuel : Nat) (current : String) (path visited : List String)
      (steps : Nat) (titles : List (String × String)),
      (∀ x, x ∈ visited ↔ x ∈ path) → path.Nodup →
      path.length = steps + 1 →
      (follow_general_path_loop e d fuel current path visited steps
          titles).path.Nodup ∧
      (follow_general_path_loop e d fuel current path visited steps
          titles).path.length =
        (follow_general_path_loop e d fuel current path visited steps
          titles).steps + 1 ∧
      ((follow_general_path_loop e d fuel current path visited steps
          titles).outcome = .loopDetected →
        ∃ u, (follow_general_path_loop e d fuel current path visited steps
            titles).cycleStart = some u ∧
          u ∈ (follow_general_path_loop e d fuel current path visited steps
            titles).path ∧
          (follow_general_path_loop e d fuel current path visited steps
            titles).path.count u = 1) := by
  intro fuel
  induction fuel with
  | zero =>
    intro current path visited steps titles hv hnd hlen
    refine ⟨hnd, hlen, ?_⟩
    intro hout
    simp [follow_general_path_loop] at hout
  | succ n ih =>
    intro current path visited steps titles hv hnd hlen
    rw [follow_general_path_loop]
    by_cases hdep : (steps : Int) ≥ (d : Int) - 1
    · refine ⟨by simpa [hdep] using hnd, by simpa [hdep] using hlen, ?_⟩
      intro hout
      simp [hdep] at hout
    · rw [if_neg hdep]
      cases hnext : (e current).1 with
      | none =>
        refine ⟨by simpa using hnd, by simpa using hlen, ?_⟩
        intro hout
        simp at hout
      | some nu =>
        by_cases hmem : nu ∈ visited
        · simp only [if_pos hmem]
          refine ⟨hnd, hlen, ?_⟩
          intro _
          refine ⟨nu, rfl, (hv nu).mp hmem, ?_⟩
          exact List.count_eq_one_of_mem hnd ((hv nu).mp hmem)
        · simp only [if_neg hmem]
          refine ih nu (path ++ [nu]) (nu :: visited) (steps + 1) _ ?_ ?_ ?_
          · intro x
            constructor
            · intro hx
              rcases List.mem_cons.mp hx with rfl | hx
              · exact List.mem_append.mpr (Or.inr (List.mem_singleton_self x))
              · exact List.mem_append.mpr (Or.inl ((hv x).mp hx))
            · intro hx
              rcases List.mem_append.mp hx with hx | hx
              · exact List.mem_cons_of_mem nu ((hv x).mpr hx)
              · rw [List.mem_singleton] at hx
                exact hx ▸ List.mem_cons_self nu visited
          · rw [List.nodup_append]
            exact ⟨hnd, List.nodup_singleton nu,
              fun x hx hx' => hmem (by
                rw [List.mem_singleton] at hx'
                exact hx' ▸ (hv x).mpr hx)⟩
          · simp [hlen]

theorem follow_general_path_loop_depth (e : String → Option String × String)
    (d : Nat) (hd : 1 ≤ d) :
    ∀ (fuel : Nat) (current : String) (path visited : List String)
      (steps : Nat) (titles : List (String × String)),
      path.length = steps + 1 → steps ≤ d - 1 → d - 1 < steps + fuel →
      (follow_general_path_loop e d fuel current path visited steps
          titles).path.length ≤ d ∧
      ((follow_general_path_loop e d fuel current path visited steps
          titles).reached = true ↔
        (follow_general_path_loop e d fuel current path visited steps
          titles).path.length = d) ∧
      ((follow_general_path_loop e d fuel current path visited steps
          titles).reached = true →
        (follow_general_path_loop e d fuel current path visited steps
          titles).outcome = .depthReached) := by
  intro fuel
  induction fuel with
  | zero =>
    intro current path visited steps titles hlen hle hbound
    omega
  | succ n ih =>
    intro current path visited steps titles hlen hle hbound
    rw [follow_general_path_loop]
    by_cases hdep : (steps : Int) ≥ (d : Int) - 1
    · rw [if_pos hdep]
      have hsteps : steps = d - 1 := by omega
      refine ⟨by show path.length ≤ d; omega, ?_, fun _ => rfl⟩
      show (true = true) ↔ path.length = d
      constructor
      · intro _; omega
      · intro _; rfl
    · rw [if_neg hdep]
      have hlt : steps < d - 1 := by omega
      cases hnext : (e current).1 with
      | none =>
        refine ⟨by show path.length ≤ d; omega, ?_, ?_⟩
        · show (decide ((steps : Int) ≥ (d : Int) - 1) = true) ↔ path.length = d
          rw [decide_eq_false hdep]
          constructor
          · intro h; exact absurd h (by simp)
          · intro h; exfalso; omega
        · show decide ((steps : Int) ≥ (d : Int) - 1) = true → _
          intro h
          rw [decide_eq_true_iff] at h
          exact absurd h hdep
      | some nu =>
        by_cases hmem : nu ∈ visited
        · simp only [if_pos hmem]
          refine ⟨by show path.length ≤ d; omega, ?_, ?_⟩
          · show (decide ((steps : Int) ≥ (d : Int) - 1) = true) ↔ path.length = d
            rw [decide_eq_false hdep]
            constructor
            · intro h; exact absurd h (by simp)
            · intro h; exfalso; omega
          · show decide ((steps : Int) ≥ (d : Int) - 1) = true → _
            intro h
            rw [decide_eq_true_iff] at h
            exact absurd h hdep
        · simp only [if_neg hmem]
          exact ih nu (path ++ [nu]) (nu :: visited) (steps + 1) _
            (by simp [hlen]) (by omega) (by omega)

theorem crawl_deeply_loop_inv (e : String → Option String × String) :
    ∀ (fuel : Nat) (current : String) (path vip : List String)
      (titles : List (String × String)) (va vg : List String),
      (∀ x, x ∈ vip ↔ x ∈ path) → path.Nodup →
      (crawl_deeply_loop e fuel current path vip titles va vg).path.Nodup ∧
      ((crawl_deeply_loop e fuel current path vip titles va vg).outcome =
          .alreadyKnown →
        ∃ u, (crawl_deeply_loop e fuel current path vip titles va
              vg).trigger = some u ∧
          (crawl_deeply_loop e fuel current path vip titles va
              vg).path.getLast? = some u ∧
          u ∈ (crawl_deeply_loop e fuel current path vip titles va
              vg).path) ∧
      ((crawl_deeply_loop e fuel current path vip titles va vg).outcome =
          .loopDetected →
        ∃ u, (crawl_deeply_loop e fuel current path vip titles va
              vg).trigger = some u ∧
          u ∈ (crawl_deeply_loop e fuel current path vip titles va
              vg).path) := by
  intro fuel
  induction fuel with
  | zero =>
    intro current path vip titles va vg hv hnd
    refine ⟨hnd, ?_, ?_⟩ <;> intro hout <;>
      simp [crawl_deeply_loop] at hout
  | succ n ih =>
    intro current path vip titles va vg hv hnd
    rw [crawl_deeply_loop]
    cases hnext : (e current).1 with
    | none =>
      refine ⟨by simpa using hnd, ?_, ?_⟩ <;> intro hout <;> simp at hout
    | some nu =>
      by_cases hmem : nu ∈ vip
      · simp only [if_pos hmem]
        refine ⟨hnd, ?_, ?_⟩
        · intro hout; simp at hout
        · intro _
          exact ⟨nu, rfl, (hv nu).mp hmem⟩
      · simp only [if_neg hmem]
        by_cases hknown : get_title_from_url nu ∈ vg
        · simp only [if_pos hknown]
          have hnotpath : nu ∉ path := fun hx => hmem ((hv nu).mpr hx)
          refine ⟨?_, ?_, ?_⟩
          · rw [List.nodup_append]
            exact ⟨hnd, List.nodup_singleton nu,
              fun x hx hx' => hnotpath (by
                rw [List.mem_singleton] at hx'
                exact hx' ▸ hx)⟩
          · intro _
            exact ⟨nu, rfl, getLast?_append_single nu path,
              List.mem_append.mpr (Or.inr (List.mem_singleton_self nu))⟩
          · intro hout; simp at hout
        · simp only [if_neg hknown]
          refine ih nu (path ++ [nu]) (nu :: vip) _ _ _ ?_ ?_
          · intro x
            constructor
            · intro hx
              rcases List.mem_cons.mp hx with rfl | hx
              · exact List.mem_append.mpr (Or.inr (List.mem_singleton_self x))
              · exact List.mem_append.mpr (Or.inl ((hv x).mp hx))
            · intro hx
              rcases List.mem_append.mp hx with hx | hx
              · exact List.mem_cons_of_mem nu ((hv x).mpr hx)
              · rw [List.mem_singleton] at hx
                exact hx ▸ List.mem_cons_self nu vip
          · rw [List.nodup_append]
            exact ⟨hnd, List.nodup_singleton nu,
              fun x hx hx' => hmem (by
                rw [List.mem_singleton] at hx'
                exact hx' ▸ (hv x).mpr hx)⟩

/-- C1 counterexample.  In WikiCrawler.follow_path the repeated locator IS
appended a second time before loop detection fires: walking the cycle
X → Y → Z → X with step budget 5 ends with outcome LoopDetected but with
path [X, Y, Z, X] (X occurs twice) and stepCount 3, not path [X, Y, Z] and
stepCount 2 as the claim states. -/
theorem follow_path_appends_repeated_locator :
    (follow_path exC1 5 "X").outcome = .loopDetected ∧
    (follow_path exC1 5 "X").path = ["X", "Y", "Z", "X"] ∧
    (follow_path exC1 5 "X").path.count "X" = 2 ∧
    (follow_path exC1 5 "X").steps = 3 := by
  refine ⟨rfl, rfl, rfl, rfl⟩

/-- C1 (amended).  For the general walker follow_general_path and the deep
walker crawl_deeply, a LoopDetected outcome's triggering locator is not
appended a second time: it occurs exactly once in the path, and the cycle
start recorded for the outcome is that unique earlier occurrence.
Scenario C holds for follow_general_path: starting at X with step budget 5
on the cycle X → Y → Z → X gives LoopDetected with cycleStart X, path
exactly [X, Y, Z] and stepCount 2.  (In WikiCrawler.follow_path, by
contrast, the repeated locator is appended before detection.) -/
theorem loop_detection_without_second_append :
    (∀ (e : String → Option String × String) (d m : Nat) (start : String),
        (follow_general_path e d m start).outcome = .loopDetected →
        ∃ u, (follow_general_path e d m start).cycleStart = some u ∧
          u ∈ (follow_general_path e d m start).path ∧
          (follow_general_path e d m start).path.count u = 1) ∧
    (∀ (e : String → Option String × String) (m : Nat) (start : String)
        (vg : List String),
        (crawl_deeply e m start vg).outcome = .loopDetected →
        ∃ u, (crawl_deeply e m start vg).trigger = some u ∧
          u ∈ (crawl_deeply e m start vg).path ∧
          (crawl_deeply e m start vg).path.count u = 1) ∧
    (follow_general_path exC1 10 5 "X").outcome = .loopDetected ∧
    (follow_general_path exC1 10 5 "X").cycleStart = some "X" ∧
    (follow_general_path exC1 10 5 "X").path = ["X", "Y", "Z"] ∧
    (follow_general_path exC1 10 5 "X").steps = 2 := by
  refine ⟨?_, ?_, rfl, rfl, rfl, rfl⟩
  · intro e d m start hout
    exact (follow_general_path_loop_inv e d m start [start] [start] 0 []
      (fun x => Iff.rfl) (List.nodup_singleton start) (by simp)).2.2 hout
  · intro e m start vg hout
    unfold crawl_deeply at hout ⊢
    by_cases hst : get_title_from_url start ∈ vg
    · rw [if_pos hst] at hout
      simp at hout
    · rw [if_neg hst] at hout ⊢
      have h := crawl_deeply_loop_inv e m start [start] [start] []
        [get_title_from_url start] (get_title_from_url start :: vg)
        (fun x => Iff.rfl) (List.nodup_singleton start)
      obtain ⟨u, ht, hm⟩ := h.2.2 hout
      exact ⟨u, ht, hm, List.count_eq_one_of_mem h.1 hm⟩

/-- Witness for the amended C1: the two universally quantified parts applied
to the Scenario C cycle for both walkers. -/
theorem loop_detection_without_second_append_witness :
    (∃ u, (follow_general_path exC1 10 5 "X").cycleStart = some u ∧
      u ∈ (follow_general_path exC1 10 5 "X").path ∧
      (follow_general_path exC1 10 5 "X").path.count u = 1) ∧
    (∃ u, (crawl_deeply exC1 5 "X" []).trigger = some u ∧
      u ∈ (crawl_deeply exC1 5 "X" []).path ∧
      (crawl_deeply exC1 5 "X" []).path.count u = 1) :=
  ⟨loop_detection_without_second_append.1 exC1 10 5 "X" rfl,
   loop_detection_without_second_append.2.1 exC1 5 "X" [] rfl⟩

/-- C2.  When the next link's locator-derived title is already in the global
visited set, the deep walker appends that link exactly once and stops with
outcome AlreadyKnown: stated first as the one-step behavior of the loop body
(large_wiki_graph_crawler.py lines 89-95), then for whole walks: an
AlreadyKnown outcome always ends the path with the triggering link, which
occurs exactly once in it. -/
theorem already_known_appends_once_and_stops :
    (∀ (e : String → Option String × String) (fuel : Nat) (current : String)
        (path vip : List String) (titles : List (String × String))
        (va vg : List String) (nu t : String),
        e current = (some nu, t) → nu ∉ vip → get_title_from_url nu ∈ vg →
        crawl_deeply_loop e (fuel + 1) current path vip titles va vg =
          ⟨path ++ [nu], (nu, get_title_from_url nu) :: (current, t) :: titles,
            va, .alreadyKnown, some nu⟩) ∧
    (∀ (e : String → Option String × String) (m : Nat) (start : String)
        (vg : List String),
        (crawl_deeply e m start vg).outcome = .alreadyKnown →
        ∃ u, (crawl_deeply e m start vg).trigger = some u ∧
          (crawl_deeply e m start vg).path.getLast? = some u ∧
          (crawl_deeply e m start vg).path.count u = 1) := by
  constructor
  · intro e fuel current path vip titles va vg nu t he hnvip hkn
    rw [crawl_deeply_loop]
    simp only [he, if_neg hnvip, if_pos hkn]
  · intro e m start vg hout
    unfold crawl_deeply at hout ⊢
    by_cases hst : get_title_from_url start ∈ vg
    · rw [if_pos hst] at hout
      simp at hout
    · rw [if_neg hst] at hout ⊢
      have h := crawl_deeply_loop_inv e m start [start] [start] []
        [get_title_from_url start] (get_title_from_url start :: vg)
        (fun x => Iff.rfl) (List.nodup_singleton start)
      obtain ⟨u, ht, hl, hm⟩ := h.2.1 hout
      exact ⟨u, ht, hl, List.count_eq_one_of_mem h.1 hm⟩

/-- Witness for C2: the one-step statement on a concrete state whose next
title Y is already known, and the whole-walk statement on a run of the
one-edge wiki against a set that already holds Y. -/
theorem already_known_appends_once_and_stops_witness :
    crawl_deeply_loop exOneEdge 5 "X" ["X"] ["X"] [] ["X"] ["X", "Y"] =
      ⟨["X"] ++ ["Y"],
        ("Y", get_title_from_url "Y") :: ("X", "Title X") :: [],
        ["X"], .alreadyKnown, some "Y"⟩ ∧
    (∃ u, (crawl_deeply exOneEdge 5 "X" ["Y"]).trigger = some u ∧
      (crawl_deeply exOneEdge 5 "X" ["Y"]).path.getLast? = some u ∧
      (crawl_deeply exOneEdge 5 "X" ["Y"]).path.count u = 1) :=
  ⟨already_known_appends_once_and_stops.1 exOneEdge 4 "X" ["X"] ["X"] []
      ["X"] ["X", "Y"] "Y" "Title X" rfl (by decide) (by decide),
   already_known_appends_once_and_stops.2 exOneEdge 5 "X" ["Y"] rfl⟩

/-- C3.  The step count reported with a finished walk equals the number of
path elements minus one, for every terminal outcome: follow_path returns its
steps counter alongside the path, follow_general_path maintains the same
invariant internally, and the deep crawler's persisted step count is
computed as len(path) - 1. -/
theorem step_count_is_edge_count :
    (∀ (e : String → Option String × String) (m : Nat) (s : String),
        (follow_path e m s).steps = (follow_path e m s).path.length - 1) ∧
    (∀ (e : String → Option String × String) (d m : Nat) (s : String),
        (follow_general_path e d m s).steps =
          (follow_general_path e d m s).path.length - 1) ∧
    (∀ r : DResult, stored_steps r = r.path.length - 1) := by
  refine ⟨?_, ?_, ?_⟩
  · intro e m s
    unfold follow_path
    have h := follow_path_loop_steps e m s [s] 0 [] (by simp)
    omega
  · intro e d m s
    unfold follow_general_path
    have h := (follow_general_path_loop_inv e d m s [s] [s] 0 []
      (fun x => Iff.rfl) (List.nodup_singleton s) (by simp)).2.1
    omega
  · intro r
    unfold stored_steps
    split <;> omega

/-- C9.  For a directed walk with target depth d ≥ 1 and a step budget above
d - 1, the depth check runs before the dead-end and loop checks, so the
returned path never exceeds d elements, and reached_depth is reported true
exactly when the walk got to d elements — via the depthReached exit, hence
even when the extractor found no next link on that step. -/
theorem directed_walk_depth_check_first (e : String → Option String × String)
    (d m : Nat) (start : String) (hd : 1 ≤ d) (hm : d - 1 < m) :
    (follow_general_path e d m start).path.length ≤ d ∧
    ((follow_general_path e d m start).reached = true ↔
      (follow_general_path e d m start).path.length = d) ∧
    ((follow_general_path e d m start).reached = true →
      (follow_general_path e d m start).outcome = .depthReached) :=
  follow_general_path_loop_depth e d hd m start [start] [start] 0 []
    (by simp) (by omega) (by omega)

/-- Witness for C9: on the one-edge wiki X → Y with target depth 2 and step
budget 5, the walk stops at [X, Y] and reports the depth as reached even
though Y has no outgoing link. -/
theorem directed_walk_depth_check_first_witness :
    (follow_general_path exOneEdge 2 5 "X").path.length ≤ 2 ∧
    ((follow_general_path exOneEdge 2 5 "X").reached = true ↔
      (follow_general_path exOneEdge 2 5 "X").path.length = 2) ∧
    ((follow_general_path exOneEdge 2 5 "X").reached = true →
      (follow_general_path exOneEdge 2 5 "X").outcome = .depthReached) :=
  directed_walk_depth_check_first exOneEdge 2 5 "X" (by omega) (by omega)

theorem subset_addAll : ∀ (ts : List String) (s : Finset String),
    s ⊆ addAll s ts := by
  intro ts
  induction ts with
  | nil => intro s; exact Finset.Subset.refl s
  | cons a ts ih =>
    intro s
    exact Finset.Subset.trans (Finset.subset_insert a s) (ih (insert a s))

/-- C10.  A deep walk whose start article's locator-derived title is already
in the supplied global visited set returns at once: path [start], empty
titles mapping, empty set of newly visited titles — so merging the result
into the global visited set is the identity. -/
theorem deep_walk_skips_known_start (e : String → Option String × String)
    (m : Nat) (start : String) (vg : List String)
    (h : get_title_from_url start ∈ vg) :
    crawl_deeply e m start vg =
      ⟨[start], [], [], .alreadyKnownStart, none⟩ ∧
    ∀ s : Finset String,
      addAll s (crawl_deeply e m start vg).visitedArticles = s := by
  have he : crawl_deeply e m start vg =
      ⟨[start], [], [], .alreadyKnownStart, none⟩ := by
    unfold crawl_deeply
    rw [if_pos h]
  exact ⟨he, fun s => by rw [he]; rfl⟩

/-- Witness for C10: a walk started at an article whose URL-derived title X
is already in the global set. -/
theorem deep_walk_skips_known_start_witness :
    get_title_from_url "https://en.wikipedia.org/wiki/X" ∈ ["X"] ∧
    crawl_deeply exOneEdge 7 "https://en.wikipedia.org/wiki/X" ["X"] =
      ⟨["https://en.wikipedia.org/wiki/X"], [], [], .alreadyKnownStart, none⟩ :=
  ⟨by decide,
   (deep_walk_skips_known_start exOneEdge 7
      "https://en.wikipedia.org/wiki/X" ["X"] (by decide)).1⟩

/-- C8.  The global visited set is monotone: every operation a controller
run performs on it (seeding from storage, merging a completed job's newly
seen titles) only adds titles, so under any interleaving of job completions
the set never loses an element and its size never decreases. -/
theorem global_visited_monotone :
    (∀ (s : Finset String) (op : VisitedOp), s ⊆ applyVisitedOp s op) ∧
    (∀ (s : Finset String) (op : VisitedOp),
      s.card ≤ (applyVisitedOp s op).card) ∧
    (∀ (s : Finset String) (ops : List VisitedOp),
      s ⊆ runVisitedOps s ops ∧ s.card ≤ (runVisitedOps s ops).card) := by
  have hstep : ∀ (s : Finset String) (op : VisitedOp),
      s ⊆ applyVisitedOp s op := by
    intro s op
    cases op with
    | seed ts => exact subset_addAll ts s
    | merge ts => exact subset_addAll ts s
  refine ⟨hstep, fun s op => Finset.card_le_card (hstep s op), ?_⟩
  intro s ops
  induction ops generalizing s with
  | nil => exact ⟨Finset.Subset.refl s, le_refl _⟩
  | cons op ops ih =>
    have h1 : s ⊆ applyVisitedOp s op := hstep s op
    have h2 := ih (applyVisitedOp s op)
    exact ⟨Finset.Subset.trans h1 h2.1,
      le_trans (Finset.card_le_card h1) h2.2⟩

theorem ctrlInv_init : CtrlInv ctrlInit := by
  refine ⟨?_, ?_, ?_, ?_⟩ <;> intro j hj <;> simp [ctrlInit] at hj ⊢

theorem ctrlStep_preserves_inv {s s' : CtrlState}
    (hstep : CtrlStep s s') (hinv : CtrlInv s) : CtrlInv s' := by
  obtain ⟨inv1, inv2, inv3, inv4⟩ := hinv
  cases hstep with
  | setFlag =>
    exact ⟨inv1, fun j hj => ⟨rfl, (inv2 j hj).2⟩, inv3, inv4⟩
  | submit j hj =>
    refine ⟨?_, ?_, ?_, ?_⟩
    · intro k hk
      rcases eq_or_ne k j with rfl | hne
      · have := inv4 k hk
        rw [hj] at this
        simp at this
      · simp only [Function.update_noteq hne]
        exact inv1 k hk
    · intro k hk
      rcases eq_or_ne k j with rfl | hne
      · simp only [Function.update_same] at hk
        have hflag : s.flag = true := by
          simpa using hk
        refine ⟨hflag, Or.inl ?_⟩
        simp only [Function.update_same]
      · simp only [Function.update_noteq hne] at hk
        refine ⟨(inv2 k hk).1, ?_⟩
        simp only [Function.update_noteq hne]
        exact (inv2 k hk).2
    · intro k hk
      rcases eq_or_ne k j with rfl | hne
      · simp only [Function.update_same]
        simp
      · simp only [Function.update_noteq hne] at hk ⊢
        exact inv3 k hk
    · intro k hk
      rcases eq_or_ne k j with rfl | hne
      · have := inv4 k hk
        rw [hj] at this
        simp at this
      · simp only [Function.update_noteq hne]
        exact inv4 k hk
  | start j hj =>
    refine ⟨inv1, ?_, ?_, ?_⟩
    · intro k hk
      rcases eq_or_ne k j with rfl | hne
      · obtain ⟨hflag, _⟩ := inv2 k hk
        refine ⟨hflag, Or.inr ?_⟩
        simp only [Function.update_same, if_pos hflag]
      · refine ⟨(inv2 k hk).1, ?_⟩
        simp only [Function.update_noteq hne]
        exact (inv2 k hk).2
    · intro k hk
      rcases eq_or_ne k j with rfl | hne
      · exact inv3 k (by rw [hj]; simp)
      · simp only [Function.update_noteq hne] at hk
        exact inv3 k hk
    · intro k hk
      rcases eq_or_ne k j with rfl | hne
      · have := inv4 k hk
        rw [hj] at this
        simp at this
      · simp only [Function.update_noteq hne]
        exact inv4 k hk
  | finishWalk j hj =>
    refine ⟨inv1, ?_, ?_, ?_⟩
    · intro k hk
      rcases eq_or_ne k j with rfl | hne
      · exfalso
        rcases (inv2 k hk).2 with hp | hp <;> rw [hj] at hp <;> simp at hp
      · refine ⟨(inv2 k hk).1, ?_⟩
        simp only [Function.update_noteq hne]
        exact (inv2 k hk).2
    · intro k hk
      rcases eq_or_ne k j with rfl | hne
      · exact inv3 k (by rw [hj]; simp)
      · simp only [Function.update_noteq hne] at hk
        exact inv3 k hk
    · intro k hk
      rcases eq_or_ne k j with rfl | hne
      · have := inv4 k hk
        rw [hj] at this
        simp at this
      · simp only [Function.update_noteq hne]
        exact inv4 k hk
  | persist j hj =>
    have haccept : s.acceptFlag j = some false := by
      have hnn : s.acceptFlag j ≠ none := inv3 j (by rw [hj]; simp)
      have hnt : s.acceptFlag j ≠ some true := by
        intro hx
        rcases (inv2 j hx).2 with hp | hp <;> rw [hj] at hp <;> simp at hp
      cases hx : s.acceptFlag j with
      | none => exact absurd hx hnn
      | some b =>
        cases b with
        | false => rfl
        | true => exact absurd hx hnt
    refine ⟨?_, ?_, ?_, ?_⟩
    · intro k hk
      rcases List.mem_cons.mp hk with rfl | hk
      · exact haccept
      · exact inv1 k hk
    · intro k hk
      rcases eq_or_ne k j with rfl | hne
      · rw [haccept] at hk
        simp at hk
      · refine ⟨(inv2 k hk).1, ?_⟩
        simp only [Function.update_noteq hne]
        exact (inv2 k hk).2
    · intro k hk
      rcases eq_or_ne k j with rfl | hne
      · exact inv3 k (by rw [hj]; simp)
      · simp only [Function.update_noteq hne] at hk
        exact inv3 k hk
    · intro k hk
      rcases eq_or_ne k j with rfl | hne
      · simp only [Function.update_same]
      · rcases List.mem_cons.mp hk with hkj | hk
        · exact absurd hkj hne
        · simp only [Function.update_noteq hne]
          exact inv4 k hk
  | discard j hj =>
    refine ⟨inv1, ?_, ?_, ?_⟩
    · intro k hk
      rcases eq_or_ne k j with rfl | hne
      · refine ⟨(inv2 k hk).1, Or.inr ?_⟩
        simp only [Function.update_same]
      · refine ⟨(inv2 k hk).1, ?_⟩
        simp only [Function.update_noteq hne]
        exact (inv2 k hk).2
    · intro k hk
      rcases eq_or_ne k j with rfl | hne
      · exact inv3 k (by rw [hj]; simp)
      · simp only [Function.update_noteq hne] at hk
        exact inv3 k hk
    · intro k hk
      rcases eq_or_ne k j with rfl | hne
      · simp only [Function.update_same]
      · simp only [Function.update_noteq hne]
        exact inv4 k hk

theorem ctrlReachable_inv {s : CtrlState} (h : CtrlReachable s) : CtrlInv s := by
  induction h with
  | refl => exact ctrlInv_init
  | tail _ hstep ih => exact ctrlStep_preserves_inv hstep ih

/-- C7.  The stop flag is never cleared by any action of a run, and in every
reachable state every job whose result reached the persistence sink was
accepted into the pool while the flag was still clear — so a job accepted
after the flag was raised never leads to a store: it short-circuits at its
pre-walk check, and an in-flight job whose post-walk check sees the flag
discards its result. -/
theorem stop_flag_monotone_no_late_persist :
    (∀ s s' : CtrlState, CtrlStep s s' → s.flag = true → s'.flag = true) ∧
    (∀ s : CtrlState, CtrlReachable s →
      ∀ j, j ∈ s.stored → s.acceptFlag j = some false) := by
  constructor
  · intro s s' hstep hflag
    cases hstep <;> simp [hflag]
  · intro s hreach j hj
    exact (ctrlReachable_inv hreach).1 j hj

/-- Witness for C7: setting the flag keeps it set, and in the concrete
reachable end state of the witness trace the one stored job was accepted
while the flag was clear. -/
theorem stop_flag_monotone_no_late_persist_witness :
    ({ ctrlInit with flag := true } : CtrlState).flag = true ∧
    ctrlW4.acceptFlag 0 = some false := by
  constructor
  · exact stop_flag_monotone_no_late_persist.1
      { ctrlInit with flag := true } _
      (CtrlStep.setFlag { ctrlInit with flag := true }) rfl
  · have hreach : CtrlReachable ctrlW4 :=
      Relation.ReflTransGen.tail
        (Relation.ReflTransGen.tail
          (Relation.ReflTransGen.tail
            (Relation.ReflTransGen.tail Relation.ReflTransGen.refl
              (CtrlStep.submit ctrlInit 0 rfl))
            (CtrlStep.start ctrlW1 0 (by decide)))
          (CtrlStep.finishWalk ctrlW2 0 (by decide)))
        (CtrlStep.persist ctrlW3 0 (by decide))
    exact stop_flag_monotone_no_late_persist.2 ctrlW4 hreach 0 (by decide)

end WikiPath
